import Mathlib

/-!
Verification development for the morning-brief decision engine
(`app/classifier.py`): the classification adapter (batching, correlation,
partial-failure isolation), the repetition-threshold detector, the keyword
override detector, and the bucket assembler `classify`.

Modelling conventions:
* Python dicts for stories are modelled by the `Story` structure (fields are
  those the classifier reads; `feed_count` defaults to 1 at the call sites in
  the source, here the field is always present as ingestion provides it).
* The external service is an oracle `Nat → Option (List LLMResult)`:
  `o i` is the parsed JSON list answered for the i-th batch, `none` meaning
  the request or the parse raised an exception.
* The verdict map (a Python dict keyed by fingerprint) is modelled as a
  function `String → Option Verdict`; later results overwrite earlier ones,
  exactly as repeated dict assignment does.
* Bucket maps (Python dicts with the six fixed keys in insertion order) are
  association lists `List (String × List DecidedStory)`.
-/

namespace MorningBrief

/-- One candidate story, as produced by ingestion (`news_fetcher.py`). -/
structure Story where
  title : String
  source : String
  summary : String
  fingerprint : String
  feed_count : Nat
deriving DecidableEq

/-- One parsed JSON object of a batch response.  Each field is optional:
the source reads them with `dict.get` and a default. -/
structure LLMResult where
  title? : Option String
  relevant? : Option Bool
  section? : Option String
  reason? : Option String
deriving DecidableEq

/-- A correlated verdict, as stored in the map returned by `_llm_classify`.
`sectionKey` renders the source's `section` field (a Lean keyword). -/
structure Verdict where
  relevant : Bool
  sectionKey : String
  reason : String
deriving DecidableEq

/-- The six valid section keys, in presentation order (`SECTIONS`). -/
def SECTIONS : List String :=
  ["headline", "global_news", "ai_tech", "macro_markets", "merger_news", "watchlist"]

/-- The configuration surface the classifier reads from `config.py`. -/
structure Config where
  MACRO_HEADLINE_THRESHOLD : Nat
  SPECIAL_SITUATIONS_KEYWORDS : List String
  SEC_HEADLINE_MAX : Nat
  SEC_GLOBAL_MAX : Nat
  SEC_AI_TECH_MAX : Nat
  SEC_MACRO_MAX : Nat
  SEC_MERGER_MAX : Nat
  SEC_WATCHLIST_MAX : Nat
deriving DecidableEq

/-- Per-section caps (`SECTION_LIMITS`), keyed like the source dict. -/
def SECTION_LIMITS (cfg : Config) : List (String × Nat) :=
  [("headline", cfg.SEC_HEADLINE_MAX),
   ("global_news", cfg.SEC_GLOBAL_MAX),
   ("ai_tech", cfg.SEC_AI_TECH_MAX),
   ("macro_markets", cfg.SEC_MACRO_MAX),
   ("merger_news", cfg.SEC_MERGER_MAX),
   ("watchlist", cfg.SEC_WATCHLIST_MAX)]

/-- The lookup `SECTION_LIMITS.get(section, 5)` of the source. -/
def limitOf (cfg : Config) (c : String) : Nat :=
  match (SECTION_LIMITS cfg).find? (fun p => p.1 == c) with
  | some p => p.2
  | none => 5

/-- The default values of `config.py` (environment unset). -/
def defaultConfig : Config :=
  { MACRO_HEADLINE_THRESHOLD := 3
    SPECIAL_SITUATIONS_KEYWORDS :=
      ["takeover", "demerger", "split", "reverse split", "hiving off",
       "activist investor", "merger", "acquisition", "IPO", "SPAC",
       "spin-off", "spinoff", "carve-out", "carveout", "restructuring"]
    SEC_HEADLINE_MAX := 2
    SEC_GLOBAL_MAX := 4
    SEC_AI_TECH_MAX := 3
    SEC_MACRO_MAX := 3
    SEC_MERGER_MAX := 3
    SEC_WATCHLIST_MAX := 5 }

/-! ## Classification adapter (`_llm_classify`) -/

/-- Maximum stories per request batch (a fixed constant in the source). -/
def _LLM_BATCH_SIZE : Nat := 50

/-- Python slicing `stories[i : i + n] for i in range(0, len(stories), n)`:
consecutive chunks of size `n` (the last possibly shorter). -/
def chunkList {α : Type} (n : Nat) : List α → List (List α)
  | [] => []
  | x :: xs => (x :: xs.take (n - 1)) :: chunkList n (xs.drop (n - 1))
termination_by l => l.length
decreasing_by
  simp only [List.length_drop, List.length_cons]
  omega

/-- The batches `_llm_classify` builds from its input. -/
def batchesOf (stories : List Story) : List (List Story) :=
  chunkList _LLM_BATCH_SIZE stories

/-- The `for batch_idx, batch in enumerate(batches)` loop: responses of the
`n` batches are accumulated in index order; a batch whose call raised
(`o i = none`) contributes nothing and the loop continues. -/
def allResults (o : Nat → Option (List LLMResult)) (n : Nat) : List LLMResult :=
  (List.range n).foldl
    (fun acc i =>
      match o i with
      | some rs => acc ++ rs
      | none => acc)
    []

/-- The dict `title_to_fp = {s["title"]: s["fingerprint"] for s in stories}` — a dict
comprehension, so a later story with the same title overwrites an earlier
one. -/
def titleToFp (stories : List Story) : String → Option String :=
  stories.foldl
    (fun m s => fun t => if t == s.title then some s.fingerprint else m t)
    (fun _ => none)

/-- The normalization `section = r.get("section", "global_news"); if section not in SECTIONS:
section = "global_news"`. -/
def normalizeSection (r : LLMResult) : String :=
  let sec := r.section?.getD "global_news"
  if SECTIONS.contains sec then sec else "global_news"

/-- The verdict record stored for one correlated result. -/
def mkVerdict (r : LLMResult) : Verdict :=
  { relevant := r.relevant?.getD false
    sectionKey := normalizeSection r
    reason := r.reason?.getD "" }

/-- One iteration of the correlation loop: look the echoed title up in
`title_to_fp`; skip the result when the lookup misses or yields a falsy
(empty) fingerprint; otherwise store the verdict under the fingerprint. -/
def correlateStep (stories : List Story) (m : String → Option Verdict)
    (r : LLMResult) : String → Option Verdict :=
  match titleToFp stories (r.title?.getD "") with
  | none => m
  | some fp =>
    if fp == "" then m
    else fun k => if k == fp then some (mkVerdict r) else m k

/-- The correlation loop over all accumulated results (source lines 208-223). -/
def correlate (stories : List Story) (results : List LLMResult) :
    String → Option Verdict :=
  results.foldl (correlateStep stories) (fun _ => none)

/-- The adapter `_llm_classify`: returns the fingerprint-keyed verdict map.  `hasClient`
models `if not client: return {}`.  The return type is total: a batch
failure is absorbed by `allResults`, never surfaced to the caller. -/
def _llm_classify (hasClient : Bool) (o : Nat → Option (List LLMResult))
    (stories : List Story) : String → Option Verdict :=
  if hasClient then correlate stories (allResults o (batchesOf stories).length)
  else fun _ => none

/-! ## Repetition threshold and keyword detectors -/

/-- The detector `_macro_trigger`: fingerprints of stories carried by at least
`MACRO_HEADLINE_THRESHOLD` feeds (a set in the source; only membership is
ever consulted). -/
def _macro_trigger (threshold : Nat) (stories : List Story) : List String :=
  (stories.filter (fun s => threshold ≤ s.feed_count)).map Story.fingerprint

/-- Python's `str.lower()`: character-wise lowercasing. -/
def strLower (s : String) : String := ⟨s.data.map Char.toLower⟩

/-- Python's substring test `pat in text` on character lists: scan every
suffix for `pat` as a leading segment. -/
def subOccurs (pat : List Char) : List Char → Bool
  | [] => pat.isEmpty
  | c :: t => pat.isPrefixOf (c :: t) || subOccurs pat t

/-- Python's `pat in text` on strings. -/
def strIn (pat text : String) : Bool :=
  subOccurs pat.toList text.toList

/-- The detector `_detect_special_situations`: keywords whose lowercase form occurs in
the lowercased `title + " " + summary`. -/
def _detect_special_situations (keywords : List String) (story : Story) :
    List String :=
  let text := strLower (story.title ++ " " ++ story.summary)
  keywords.filter (fun kw => strIn (strLower kw) text)

/-! ## Decision engine (`classify`) -/

/-- A story with the decision fields the engine attaches. -/
structure DecidedStory where
  story : Story
  sectionKey : String
  triggered_by : List String
  special_situations : List String
  reason : String
deriving DecidableEq

/-- Truthiness of `llm_info.get("relevant")` (`llm_info` is `{}` on a miss). -/
def relevantOf (v? : Option Verdict) : Bool :=
  match v? with
  | some v => v.relevant
  | none => false

/-- The read `llm_info.get("section", "global_news")`. -/
def preSection (v? : Option Verdict) : String :=
  match v? with
  | some v => v.sectionKey
  | none => "global_news"

/-- The read `llm_info.get("reason", "")`. -/
def reasonOf (v? : Option Verdict) : String :=
  match v? with
  | some v => v.reason
  | none => ""

/-- The decision fields `classify` computes for one story: the triggers, the
keyword tags, the post-override section and the reason. -/
def decideStory (cfg : Config) (verdicts : String → Option Verdict)
    (macroFps : List String) (s : Story) : DecidedStory :=
  let v? := verdicts s.fingerprint
  let triggers :=
    (if relevantOf v? then ["llm"] else []) ++
    (if macroFps.contains s.fingerprint then ["macro"] else [])
  let specials := _detect_special_situations cfg.SPECIAL_SITUATIONS_KEYWORDS s
  let sec0 := preSection v?
  let sec :=
    if !specials.isEmpty && sec0 != "headline" && sec0 != "merger_news"
    then "merger_news" else sec0
  { story := s
    sectionKey := sec
    triggered_by := triggers
    special_situations := specials
    reason := reasonOf v? }

/-- The bucket map: section key to admitted stories, in key insertion order. -/
abbrev Buckets := List (String × List DecidedStory)

/-- The initial `buckets = {s: [] for s in SECTIONS}`. -/
def initBuckets : Buckets := SECTIONS.map (fun c => (c, []))

/-- Dict lookup `buckets[c]` (first matching key; `[]` when absent). -/
def bucketGet : Buckets → String → List DecidedStory
  | [], _ => []
  | p :: ps, c => if p.1 == c then p.2 else bucketGet ps c

/-- The append `buckets[c].append(d)`: extend the list bound to `c`, keep keys as-is. -/
def bucketAppend : Buckets → String → DecidedStory → Buckets
  | [], _, _ => []
  | p :: ps, c, d =>
    (if p.1 == c then (p.1, p.2 ++ [d]) else p) :: bucketAppend ps c d

/-- The body of the `for s in stories` loop of `classify`: skip untriggered
stories; admit a triggered story to its section's bucket only below the cap. -/
def classifyStep (cfg : Config) (verdicts : String → Option Verdict)
    (macroFps : List String) (bs : Buckets) (s : Story) : Buckets :=
  let d := decideStory cfg verdicts macroFps s
  if d.triggered_by.isEmpty then bs
  else if (bucketGet bs d.sectionKey).length < limitOf cfg d.sectionKey
  then bucketAppend bs d.sectionKey d
  else bs

/-- The single pass of `classify` given an already-materialized verdict map. -/
def classifyWith (cfg : Config) (verdicts : String → Option Verdict)
    (stories : List Story) : Buckets :=
  stories.foldl
    (classifyStep cfg verdicts
      (_macro_trigger cfg.MACRO_HEADLINE_THRESHOLD stories))
    initBuckets

/-- The engine `classify`: run the adapter and the repetition detector over the full
input, then assemble the buckets in one pass. -/
def classify (hasClient : Bool) (o : Nat → Option (List LLMResult))
    (cfg : Config) (stories : List Story) : Buckets :=
  classifyWith cfg (_llm_classify hasClient o stories) stories

/-- A story of the given fingerprint appears in some bucket of the output. -/
def appearsIn (bs : Buckets) (fp : String) : Prop :=
  ∃ p ∈ bs, ∃ d ∈ p.2, d.story.fingerprint = fp

instance (bs : Buckets) (fp : String) : Decidable (appearsIn bs fp) := by
  unfold appearsIn
  exact inferInstance

/-- A tiny story used to instantiate theorems with hypotheses. -/
def sampleStory : Story :=
  { title := "t", source := "s", summary := "", fingerprint := "f", feed_count := 1 }

/-- A 51-story input, which the adapter must split into two batches. -/
def fiftyOneStories : List Story := List.replicate 51 sampleStory

/-- A response whose section key is not one of the fixed six. -/
def badSectionResult : LLMResult :=
  { title? := some "t", relevant? := some true, section? := some "bogus",
    reason? := some "why" }

/-- A response echoing a title that matches no input story. -/
def strayResult : LLMResult :=
  { title? := some "unknown title", relevant? := some true,
    section? := some "ai_tech", reason? := some "why" }

/-- A story admitted purely through the cross-feed repetition threshold. -/
def macroStory : Story :=
  { title := "T", source := "src", summary := "", fingerprint := "fp1",
    feed_count := 3 }

/-- The decided form of `macroStory` in the credential-less default run. -/
def macroDecided : DecidedStory :=
  decideStory defaultConfig (_llm_classify false (fun _ => none) [macroStory])
    (_macro_trigger defaultConfig.MACRO_HEADLINE_THRESHOLD [macroStory])
    macroStory

/-- A story whose title carries a special-situation keyword. -/
def kwStory : Story :=
  { title := "Big merger talks", source := "src", summary := "",
    fingerprint := "fpk", feed_count := 3 }

/-- The decided form of `kwStory` in the credential-less default run. -/
def kwDecided : DecidedStory :=
  decideStory defaultConfig (_llm_classify false (fun _ => none) [kwStory])
    (_macro_trigger defaultConfig.MACRO_HEADLINE_THRESHOLD [kwStory]) kwStory

/-- The default configuration with the global_news cap forced to zero. -/
def zeroCapConfig : Config := { defaultConfig with SEC_GLOBAL_MAX := 0 }

/-- Five stories, all repetition-triggered toward global_news (cap 4). -/
def overflowStories : List Story :=
  [{ title := "T1", source := "s1", summary := "", fingerprint := "fpa",
     feed_count := 3 },
   { title := "T2", source := "s2", summary := "", fingerprint := "fpb",
     feed_count := 3 },
   { title := "T3", source := "s3", summary := "", fingerprint := "fpc",
     feed_count := 3 },
   { title := "T4", source := "s4", summary := "", fingerprint := "fpd",
     feed_count := 3 },
   { title := "T5", source := "s5", summary := "", fingerprint := "fpe",
     feed_count := 3 }]

/-! ## Substring scan: soundness and completeness -/

/-- The scan `subOccurs` decides the infix relation, i.e. Python's `in`. -/
theorem subOccurs_iff (pat l : List Char) :
    subOccurs pat l = true ↔ pat <:+: l := by
  induction l with
  | nil => simp [subOccurs, List.isEmpty_iff, List.infix_nil]
  | cons c t ih =>
      simp only [subOccurs, Bool.or_eq_true, List.isPrefixOf_iff_prefix, ih,
        List.infix_cons_iff]

/-! ## Batching lemmas -/

/-- Re-concatenating the chunks gives back the original list. -/
theorem chunkList_flatten {α : Type} (n : Nat) (l : List α) :
    (chunkList n l).flatten = l := by
  induction l using chunkList.induct n with
  | case1 => simp [chunkList]
  | case2 x xs ih => simp [chunkList, ih]

/-- Every chunk is non-empty and no longer than the chunk size. -/
theorem chunkList_mem_length {α : Type} (n : Nat) (hn : 1 ≤ n) (l : List α)
    (b : List α) (hb : b ∈ chunkList n l) : 0 < b.length ∧ b.length ≤ n := by
  induction l using chunkList.induct n with
  | case1 => simp [chunkList] at hb
  | case2 x xs ih =>
      simp only [chunkList, List.mem_cons] at hb
      rcases hb with hb | hb
      · subst hb
        simp only [List.length_cons, List.length_take]
        omega
      · exact ih hb

/-- The function `chunkList` yields no chunk on exactly the empty list. -/
theorem chunkList_eq_nil_iff {α : Type} (n : Nat) (l : List α) :
    chunkList n l = [] ↔ l = [] := by
  cases l with
  | nil => simp [chunkList]
  | cons x xs => simp [chunkList]

/-- Every chunk but possibly the last has exactly the chunk size. -/
theorem chunkList_getD_length {α : Type} (n : Nat) (hn : 1 ≤ n) (l : List α)
    (i : Nat) (hi : i + 1 < (chunkList n l).length) :
    ((chunkList n l).getD i []).length = n := by
  induction l using chunkList.induct n generalizing i with
  | case1 => simp [chunkList] at hi
  | case2 x xs ih =>
      cases i with
      | zero =>
          simp only [chunkList, List.length_cons] at hi
          have hrest : chunkList n (xs.drop (n - 1)) ≠ [] := by
            intro hc
            rw [hc] at hi
            simp at hi
          rw [Ne, chunkList_eq_nil_iff, ← Ne, ← List.length_pos] at hrest
          simp only [List.length_drop] at hrest
          simp only [chunkList, List.getD_cons_zero, List.length_cons,
            List.length_take]
          omega
      | succ j =>
          simp only [chunkList, List.length_cons] at hi
          simp only [chunkList, List.getD_cons_succ]
          exact ih j (by omega)

/-- The response accumulation loop equals the in-order concatenation of the
successful responses. -/
theorem allResults_eq_flatten (o : Nat → Option (List LLMResult)) (n : Nat) :
    allResults o n = ((List.range n).filterMap o).flatten := by
  unfold allResults
  suffices h : ∀ (l : List Nat) (acc : List LLMResult),
      l.foldl
        (fun acc i =>
          match o i with
          | some rs => acc ++ rs
          | none => acc)
        acc = acc ++ (l.filterMap o).flatten by
    simpa using h (List.range n) []
  intro l
  induction l with
  | nil => simp
  | cons i t ih =>
      intro acc
      simp only [List.foldl_cons, List.filterMap_cons]
      cases h : o i with
      | none => simp [ih]
      | some rs => simp [ih]

/-- C9: for every story and configured keyword list, the keyword override
detector returns exactly the sub-list of configured keywords, in configured
order, whose case-insensitive form occurs as a substring of
`title ++ " " ++ summary`; in particular the empty list when none matches. -/
theorem detect_special_situations_spec (keywords : List String) (s : Story) :
    _detect_special_situations keywords s =
      keywords.filter (fun kw =>
        decide ((strLower kw).toList <:+:
          (strLower (s.title ++ " " ++ s.summary)).toList)) := by
  unfold _detect_special_situations strIn
  apply List.filter_congr
  intro kw _
  rw [Bool.eq_iff_iff]
  simp [subOccurs_iff]

/-- C7: the adapter splits the input into consecutive batches of at most
`_LLM_BATCH_SIZE` (= 50) stories, every batch except possibly the last of
exactly that size, whose in-order concatenation is the input; responses are
accumulated sequentially in partition order. -/
theorem llm_batches_partition (stories : List Story) :
    (batchesOf stories).flatten = stories ∧
    (∀ b ∈ batchesOf stories, 0 < b.length ∧ b.length ≤ _LLM_BATCH_SIZE) ∧
    (∀ i, i + 1 < (batchesOf stories).length →
      ((batchesOf stories).getD i []).length = _LLM_BATCH_SIZE) ∧
    (∀ (o : Nat → Option (List LLMResult)) (n : Nat),
      allResults o n = ((List.range n).filterMap o).flatten) := by
  refine ⟨chunkList_flatten _ _, ?_, ?_, allResults_eq_flatten⟩
  · intro b hb
    exact chunkList_mem_length _ (by norm_num [_LLM_BATCH_SIZE]) _ b hb
  · intro i hi
    exact chunkList_getD_length _ (by norm_num [_LLM_BATCH_SIZE]) _ i hi

theorem llm_batches_partition_witness :
    (batchesOf fiftyOneStories).flatten = fiftyOneStories ∧
    ((batchesOf fiftyOneStories).getD 0 []).length = _LLM_BATCH_SIZE := by
  have h := llm_batches_partition fiftyOneStories
  refine ⟨h.1, h.2.2.1 0 ?_⟩
  have : fiftyOneStories = sampleStory :: List.replicate 50 sampleStory := rfl
  rw [this]
  simp [batchesOf, chunkList, _LLM_BATCH_SIZE, List.take_replicate,
    List.drop_replicate, List.length_pos, chunkList_eq_nil_iff]

/-! ## Correlation lemmas -/

/-- A title carried by no story is absent from `title_to_fp`. -/
theorem titleToFp_foldl_eq_none (stories : List Story)
    (m : String → Option String) (t : String)
    (h : ∀ s ∈ stories, s.title ≠ t) (hm : m t = none) :
    (stories.foldl
      (fun m s => fun u => if u == s.title then some s.fingerprint else m u)
      m) t = none := by
  induction stories generalizing m with
  | nil => simpa using hm
  | cons s ss ih =>
      simp only [List.foldl_cons]
      refine ih _ (fun x hx => h x (List.mem_cons_of_mem _ hx)) ?_
      have hne : (t == s.title) = false := by
        rw [beq_eq_false_iff_ne]
        exact fun hh => h s (List.mem_cons_self s ss) hh.symm
      simp [hne, hm]

theorem titleToFp_eq_none (stories : List Story) (t : String)
    (h : ∀ s ∈ stories, s.title ≠ t) : titleToFp stories t = none := by
  unfold titleToFp
  exact titleToFp_foldl_eq_none stories _ t h rfl

/-- Every verdict the correlation loop stores has a valid section key. -/
theorem mkVerdict_section_valid (r : LLMResult) :
    (mkVerdict r).sectionKey ∈ SECTIONS := by
  unfold mkVerdict normalizeSection
  dsimp only
  split
  · next h => exact List.mem_of_elem_eq_true h
  · simp [SECTIONS]

theorem correlate_foldl_section_valid (stories : List Story)
    (results : List LLMResult) (m : String → Option Verdict)
    (hm : ∀ fp v, m fp = some v → v.sectionKey ∈ SECTIONS) :
    ∀ fp v, (results.foldl (correlateStep stories) m) fp = some v →
      v.sectionKey ∈ SECTIONS := by
  induction results generalizing m with
  | nil => exact hm
  | cons r rs ih =>
      simp only [List.foldl_cons]
      apply ih
      intro fp v hv
      unfold correlateStep at hv
      cases htf : titleToFp stories (r.title?.getD "") with
      | none =>
          rw [htf] at hv
          exact hm fp v hv
      | some fp' =>
          rw [htf] at hv
          have hv2 :
              (if (fp' == "") = true then m
               else fun k =>
                 if (k == fp') = true then some (mkVerdict r) else m k) fp =
                some v := hv
          by_cases hfp : (fp' == "") = true
          · rw [if_pos hfp] at hv2
            exact hm fp v hv2
          · rw [if_neg hfp] at hv2
            have hv' :
                (if (fp == fp') = true then some (mkVerdict r) else m fp) =
                  some v := hv2
            by_cases hk : (fp == fp') = true
            · rw [if_pos hk] at hv'
              cases hv'
              exact mkVerdict_section_valid r
            · rw [if_neg hk] at hv'
              exact hm fp v hv'

/-- Every verdict the adapter returns carries a valid section key. -/
theorem llm_classify_section_valid (hasClient : Bool)
    (o : Nat → Option (List LLMResult)) (stories : List Story) (fp : String)
    (v : Verdict) (hv : _llm_classify hasClient o stories fp = some v) :
    v.sectionKey ∈ SECTIONS := by
  unfold _llm_classify at hv
  split at hv
  · unfold correlate at hv
    refine correlate_foldl_section_valid stories _ _ ?_ fp v hv
    intro fp' v' h
    simp at h
  · simp at hv

/-! ## Claim theorems: classification adapter -/

/-- C5: a batch whose request or parse raises an exception contributes zero
verdicts while all remaining batches are still processed: a run in which
batch `j` fails yields exactly the verdict map of the run in which batch `j`
answers with no verdicts and every other batch answers identically.  The
adapter's return type is a total map, so no exception escapes to the caller
(`none` responses model raised exceptions and are absorbed here). -/
theorem llm_classify_batch_isolation (stories : List Story)
    (o : Nat → Option (List LLMResult)) (j : Nat) (hfail : o j = none) :
    _llm_classify true o stories =
      _llm_classify true (fun i => if i == j then some [] else o i) stories := by
  unfold _llm_classify
  simp only [if_true]
  refine congrArg (correlate stories) ?_
  unfold allResults
  apply List.foldl_ext
  intro acc i _
  by_cases h : i = j
  · subst h
    simp [hfail]
  · simp [h]

theorem llm_classify_batch_isolation_witness :
    (fun _ : Nat => (none : Option (List LLMResult))) 0 = none ∧
    _llm_classify true (fun _ => none) [sampleStory] =
      _llm_classify true (fun i => if i == 0 then some [] else none)
        [sampleStory] :=
  ⟨rfl, llm_classify_batch_isolation [sampleStory] (fun _ => none) 0 rfl⟩

/-- C6: every verdict stored in the adapter's returned map has one of the six
fixed section keys, and a response object whose section field is missing or
names a key outside the fixed six is stored with section `global_news`; the
invalid category is normalized rather than propagated as an error. -/
theorem llm_verdict_section_normalized :
    (∀ (hasClient : Bool) (o : Nat → Option (List LLMResult))
       (stories : List Story) (fp : String) (v : Verdict),
       _llm_classify hasClient o stories fp = some v →
         v.sectionKey ∈ SECTIONS) ∧
    (∀ r : LLMResult,
       r.section? = none ∨ r.section?.getD "global_news" ∉ SECTIONS →
         (mkVerdict r).sectionKey = "global_news") := by
  constructor
  · intro hasClient o stories fp v hv
    exact llm_classify_section_valid hasClient o stories fp v hv
  · intro r hr
    unfold mkVerdict normalizeSection
    rcases hr with h | h
    · simp [h, SECTIONS]
    · have hc : SECTIONS.contains (r.section?.getD "global_news") = false := by
        simp [h]
      simp only [hc, Bool.false_eq_true, if_false]

theorem llm_verdict_section_normalized_witness :
    ((some "bogus" : Option String).getD "global_news" ∉ SECTIONS) ∧
    (mkVerdict badSectionResult).sectionKey = "global_news" ∧
    _llm_classify true (fun i => if i == 0 then some [badSectionResult] else none)
        [sampleStory] "f" = some (mkVerdict badSectionResult) ∧
    (mkVerdict badSectionResult).sectionKey ∈ SECTIONS := by
  have hnotin : (some "bogus" : Option String).getD "global_news" ∉ SECTIONS := by
    decide
  have hb : (batchesOf [sampleStory]).length = 1 := by
    simp [batchesOf, chunkList]
  have hmap :
      _llm_classify true (fun i => if i == 0 then some [badSectionResult] else none)
        [sampleStory] "f" = some (mkVerdict badSectionResult) := by
    unfold _llm_classify
    rw [if_pos rfl, hb]
    decide
  refine ⟨hnotin, ?_, hmap, ?_⟩
  · exact llm_verdict_section_normalized.2 badSectionResult (Or.inr hnotin)
  · exact llm_verdict_section_normalized.1 true _ [sampleStory] "f"
      (mkVerdict badSectionResult) hmap

/-- C8: a verdict whose echoed title exactly matches no input story's title
is silently discarded: removing it from the accumulated results leaves the
correlated verdict map unchanged, so it contributes no entry and does not
affect the correlation of any other verdict. -/
theorem correlate_unmatched_title_dropped (stories : List Story)
    (pre post : List LLMResult) (r : LLMResult)
    (hmiss : ∀ s ∈ stories, s.title ≠ r.title?.getD "") :
    correlate stories (pre ++ r :: post) = correlate stories (pre ++ post) := by
  unfold correlate
  rw [List.foldl_append, List.foldl_append, List.foldl_cons]
  congr 1
  unfold correlateStep
  rw [titleToFp_eq_none stories _ hmiss]

theorem correlate_unmatched_title_dropped_witness :
    correlate [sampleStory] ([] ++ strayResult :: []) =
      correlate [sampleStory] ([] ++ []) :=
  correlate_unmatched_title_dropped [sampleStory] [] [] strayResult (by decide)

/-! ## Bucket map lemmas -/

/-- The update `bucketAppend` never changes the key sequence of the bucket map. -/
theorem bucketAppend_keys (bs : Buckets) (c : String) (d : DecidedStory) :
    (bucketAppend bs c d).map Prod.fst = bs.map Prod.fst := by
  induction bs with
  | nil => rfl
  | cons p ps ih =>
      by_cases hpc : p.1 = c <;> simp [bucketAppend, hpc, ih]

/-- Reading after appending: the bucket at the appended key (when the key is
present) grows by exactly the appended element at its end; every other
bucket is untouched. -/
theorem bucketGet_bucketAppend (bs : Buckets) (c c' : String)
    (d : DecidedStory) :
    bucketGet (bucketAppend bs c d) c' =
      if c' = c ∧ c ∈ bs.map Prod.fst then bucketGet bs c' ++ [d]
      else bucketGet bs c' := by
  induction bs with
  | nil => simp [bucketAppend, bucketGet]
  | cons p ps ih =>
      by_cases hpc : p.1 = c
      · by_cases hcc : c' = c
        · subst hcc
          simp [bucketAppend, bucketGet, hpc, ih]
        · have hx : ¬ (c = c') := fun hh => hcc hh.symm
          simp [bucketAppend, bucketGet, hpc, hcc, ih, hx]
      · by_cases hpc' : p.1 = c'
        · have hcc : ¬ (c' = c) := fun hh => hpc (hpc' ▸ hh ▸ rfl)
          simp [bucketAppend, bucketGet, hpc, hpc', hcc]
        · have hx : ¬ (c = p.1) := fun hh => hpc hh.symm
          by_cases hm : c ∈ ps.map Prod.fst
          · have hm2 : c ∈ (p :: ps).map Prod.fst := by
              simp [List.mem_cons, hm]
            simp [bucketAppend, bucketGet, hpc, hpc', ih, hm, hm2]
          · have hm2 : c ∉ (p :: ps).map Prod.fst := by
              simp [List.mem_cons, hm, hx]
            simp [bucketAppend, bucketGet, hpc, hpc', ih, hm, hm2, hx]

/-- A member of some bucket list lies in some entry of the map. -/
theorem exists_entry_of_mem_bucketGet (bs : Buckets) (c : String)
    (d : DecidedStory) (h : d ∈ bucketGet bs c) :
    ∃ p ∈ bs, p.1 = c ∧ d ∈ p.2 := by
  induction bs with
  | nil => simp [bucketGet] at h
  | cons p ps ih =>
      by_cases hpc : p.1 = c
      · refine ⟨p, List.mem_cons_self p ps, hpc, ?_⟩
        simpa [bucketGet, hpc] using h
      · rw [bucketGet, if_neg (by simpa using hpc)] at h
        rcases ih h with ⟨q, hq, hq1, hq2⟩
        exact ⟨q, List.mem_cons_of_mem p hq, hq1, hq2⟩

/-- With distinct keys, an element of an entry's list is read back by
`bucketGet` at that entry's key. -/
theorem mem_bucketGet_of_entry (bs : Buckets) (p : String × List DecidedStory)
    (hp : p ∈ bs) (d : DecidedStory) (hd : d ∈ p.2)
    (hnd : (bs.map Prod.fst).Nodup) : d ∈ bucketGet bs p.1 := by
  induction bs with
  | nil => cases hp
  | cons q qs ih =>
      rcases List.mem_cons.1 hp with rfl | hp'
      · simp [bucketGet, hd]
      · rw [List.map_cons] at hnd
        have hq : q.1 ≠ p.1 := by
          intro hEq
          exact (List.nodup_cons.1 hnd).1 (hEq ▸ List.mem_map_of_mem Prod.fst hp')
        rw [bucketGet, if_neg (by simpa using hq)]
        exact ih hp' (List.nodup_cons.1 hnd).2

/-! ## Decision step lemmas -/

theorem decideStory_story (cfg : Config) (verdicts : String → Option Verdict)
    (macroFps : List String) (s : Story) :
    (decideStory cfg verdicts macroFps s).story = s := rfl

theorem decideStory_triggered_by (cfg : Config)
    (verdicts : String → Option Verdict) (macroFps : List String) (s : Story) :
    (decideStory cfg verdicts macroFps s).triggered_by =
      (if relevantOf (verdicts s.fingerprint) then ["llm"] else []) ++
      (if macroFps.contains s.fingerprint then ["macro"] else []) := rfl

theorem decideStory_special_situations (cfg : Config)
    (verdicts : String → Option Verdict) (macroFps : List String) (s : Story) :
    (decideStory cfg verdicts macroFps s).special_situations =
      _detect_special_situations cfg.SPECIAL_SITUATIONS_KEYWORDS s := rfl

theorem decideStory_sectionKey (cfg : Config)
    (verdicts : String → Option Verdict) (macroFps : List String) (s : Story) :
    (decideStory cfg verdicts macroFps s).sectionKey =
      (if !(_detect_special_situations cfg.SPECIAL_SITUATIONS_KEYWORDS s).isEmpty &&
          preSection (verdicts s.fingerprint) != "headline" &&
          preSection (verdicts s.fingerprint) != "merger_news"
       then "merger_news" else preSection (verdicts s.fingerprint)) := rfl

/-- The loop body never changes the key sequence. -/
theorem classifyStep_keys (cfg : Config) (verdicts : String → Option Verdict)
    (macroFps : List String) (bs : Buckets) (s : Story) :
    (classifyStep cfg verdicts macroFps bs s).map Prod.fst =
      bs.map Prod.fst := by
  simp only [classifyStep]
  split
  · rfl
  · split
    · exact bucketAppend_keys bs _ _
    · rfl

theorem foldl_classifyStep_keys (cfg : Config)
    (verdicts : String → Option Verdict) (macroFps : List String)
    (l : List Story) (bs : Buckets) :
    (l.foldl (classifyStep cfg verdicts macroFps) bs).map Prod.fst =
      bs.map Prod.fst := by
  induction l generalizing bs with
  | nil => rfl
  | cons s t ih =>
      rw [List.foldl_cons, ih, classifyStep_keys]

/-- One loop iteration only ever extends a bucket at its end. -/
theorem bucketGet_classifyStep_mono (cfg : Config)
    (verdicts : String → Option Verdict) (macroFps : List String)
    (bs : Buckets) (s : Story) (c : String) :
    bucketGet bs c <+: bucketGet (classifyStep cfg verdicts macroFps bs s) c := by
  simp only [classifyStep]
  split
  · exact List.prefix_refl _
  · split
    · rw [bucketGet_bucketAppend]
      split
      · exact List.prefix_append _ _
      · exact List.prefix_refl _
    · exact List.prefix_refl _

/-- Once admitted, an item is never displaced or reordered by later items. -/
theorem bucketGet_foldl_mono (cfg : Config)
    (verdicts : String → Option Verdict) (macroFps : List String)
    (l : List Story) (bs : Buckets) (c : String) :
    bucketGet bs c <+:
      bucketGet (l.foldl (classifyStep cfg verdicts macroFps) bs) c := by
  induction l generalizing bs with
  | nil => exact List.prefix_refl _
  | cons s t ih =>
      rw [List.foldl_cons]
      exact (bucketGet_classifyStep_mono cfg verdicts macroFps bs s c).trans
        (ih _)

/-- Anything in a bucket after one iteration was already there, or is the
decided form of the processed story, admitted at its section with a
non-empty trigger list. -/
theorem mem_bucketGet_classifyStep (cfg : Config)
    (verdicts : String → Option Verdict) (macroFps : List String)
    (bs : Buckets) (s : Story) (c : String) (d : DecidedStory)
    (h : d ∈ bucketGet (classifyStep cfg verdicts macroFps bs s) c) :
    d ∈ bucketGet bs c ∨
      (d = decideStory cfg verdicts macroFps s ∧ c = d.sectionKey ∧
        d.triggered_by ≠ []) := by
  simp only [classifyStep] at h
  split at h
  · exact Or.inl h
  · next hne =>
    split at h
    · rw [bucketGet_bucketAppend] at h
      split at h
      · next hcond =>
          rcases List.mem_append.1 h with h1 | h1
          · exact Or.inl h1
          · have hd : d = decideStory cfg verdicts macroFps s := by
              simpa using h1
            refine Or.inr ⟨hd, ?_, ?_⟩
            · rw [hd]
              exact hcond.1
            · rw [hd]
              intro hemp
              exact hne (by simp [hemp])
      · exact Or.inl h
    · exact Or.inl h

/-- Anything in a bucket after the loop was in the starting map, or is the
decided form of some processed story, admitted at its section with a
non-empty trigger list. -/
theorem mem_bucketGet_foldl (cfg : Config)
    (verdicts : String → Option Verdict) (macroFps : List String)
    (l : List Story) (bs : Buckets) (c : String) (d : DecidedStory)
    (h : d ∈ bucketGet (l.foldl (classifyStep cfg verdicts macroFps) bs) c) :
    d ∈ bucketGet bs c ∨
      ∃ s ∈ l, d = decideStory cfg verdicts macroFps s ∧ c = d.sectionKey ∧
        d.triggered_by ≠ [] := by
  induction l generalizing bs with
  | nil => exact Or.inl h
  | cons s t ih =>
      rw [List.foldl_cons] at h
      rcases ih _ h with h1 | ⟨s', hs', h2⟩
      · rcases mem_bucketGet_classifyStep cfg verdicts macroFps bs s c d h1 with
          h2 | h3
        · exact Or.inl h2
        · exact Or.inr ⟨s, List.mem_cons_self s t, h3⟩
      · exact Or.inr ⟨s', List.mem_cons_of_mem s hs', h2⟩

/-- The starting bucket map has exactly the `SECTIONS` keys. -/
theorem initBuckets_keys : initBuckets.map Prod.fst = SECTIONS := by
  unfold initBuckets
  rw [List.map_map]
  have h : (Prod.fst ∘ fun c : String => (c, ([] : List DecidedStory))) = id :=
    rfl
  rw [h, List.map_id]

/-- The key sequence of the output bucket map is exactly `SECTIONS`. -/
theorem classify_keys_eq (hasClient : Bool) (o : Nat → Option (List LLMResult))
    (cfg : Config) (stories : List Story) :
    (classify hasClient o cfg stories).map Prod.fst = SECTIONS := by
  unfold classify classifyWith
  rw [foldl_classifyStep_keys, initBuckets_keys]

/-- Every starting bucket is empty. -/
theorem bucketGet_initBuckets (c : String) : bucketGet initBuckets c = [] := by
  have h : initBuckets =
      [("headline", []), ("global_news", []), ("ai_tech", []),
       ("macro_markets", []), ("merger_news", []), ("watchlist", [])] := rfl
  rw [h]
  simp [bucketGet]

/-- Membership in an output entry, decomposed to the decided story it came
from: glue between the association-list view and the fold lemmas. -/
theorem classify_entry_decomp (hasClient : Bool)
    (o : Nat → Option (List LLMResult)) (cfg : Config) (stories : List Story)
    (p : String × List DecidedStory) (hp : p ∈ classify hasClient o cfg stories)
    (d : DecidedStory) (hd : d ∈ p.2) :
    ∃ s ∈ stories,
      d = decideStory cfg (_llm_classify hasClient o stories)
            (_macro_trigger cfg.MACRO_HEADLINE_THRESHOLD stories) s ∧
      p.1 = d.sectionKey ∧ d.triggered_by ≠ [] := by
  have hnd : ((classify hasClient o cfg stories).map Prod.fst).Nodup := by
    rw [classify_keys_eq]
    decide
  have hmem : d ∈ bucketGet (classify hasClient o cfg stories) p.1 :=
    mem_bucketGet_of_entry _ p hp d hd hnd
  have hdec := mem_bucketGet_foldl cfg (_llm_classify hasClient o stories)
    (_macro_trigger cfg.MACRO_HEADLINE_THRESHOLD stories) stories initBuckets
    p.1 d hmem
  rcases hdec with h1 | ⟨s, hs, h2, h3, h4⟩
  · rw [bucketGet_initBuckets] at h1
    cases h1
  · exact ⟨s, hs, h2, h3, h4⟩

/-! ## Claim theorems: decision engine -/

/-- C10: for every input story list (the empty list included), the map
returned by `classify` has exactly the six fixed section keys in their
fixed insertion order, and every section — also one with no admitted
items — is present, bound to a (possibly empty) list rather than absent. -/
theorem classify_fixed_keys (hasClient : Bool)
    (o : Nat → Option (List LLMResult)) (cfg : Config) (stories : List Story) :
    (classify hasClient o cfg stories).map Prod.fst = SECTIONS ∧
    ∀ c ∈ SECTIONS, ∃ p ∈ classify hasClient o cfg stories, p.1 = c := by
  refine ⟨classify_keys_eq hasClient o cfg stories, ?_⟩
  intro c hc
  rw [← classify_keys_eq hasClient o cfg stories] at hc
  rcases List.mem_map.1 hc with ⟨p, hp, hfst⟩
  exact ⟨p, hp, hfst⟩

theorem classify_fixed_keys_witness :
    ∃ p ∈ classify false (fun _ => none) defaultConfig [], p.1 = "headline" :=
  (classify_fixed_keys false (fun _ => none) defaultConfig []).2 "headline"
    (by decide)

/-- C2 counterexample: with one story admitted purely through the cross-feed
threshold, its `triggered_by` equals `["macro"]`, whose element is not drawn
from the set {"llm", "repetition"} stated by the claim. -/
theorem classify_triggered_by_label_cex :
    ∃ p ∈ classify false (fun _ => none) defaultConfig [macroStory],
      ∃ d ∈ p.2, ¬ (∀ t ∈ d.triggered_by, t = "llm" ∨ t = "repetition") := by
  decide

/-- C2 (amended: the code's label for the repetition trigger is "macro",
not "repetition"): every admitted item carries a non-empty `triggered_by`
drawn from {"llm", "macro"}; "llm" is present exactly when the correlated
verdict marks the item relevant, and "macro" exactly when the item's
fingerprint is in the repetition-threshold detector's result set. -/
theorem classify_triggered_by (hasClient : Bool)
    (o : Nat → Option (List LLMResult)) (cfg : Config) (stories : List Story)
    (p : String × List DecidedStory) (hp : p ∈ classify hasClient o cfg stories)
    (d : DecidedStory) (hd : d ∈ p.2) :
    d.triggered_by ≠ [] ∧
    (∀ t ∈ d.triggered_by, t = "llm" ∨ t = "macro") ∧
    ("llm" ∈ d.triggered_by ↔
      relevantOf (_llm_classify hasClient o stories d.story.fingerprint) = true) ∧
    ("macro" ∈ d.triggered_by ↔
      d.story.fingerprint ∈
        _macro_trigger cfg.MACRO_HEADLINE_THRESHOLD stories) := by
  rcases classify_entry_decomp hasClient o cfg stories p hp d hd with
    ⟨s, _, hds, _, hne⟩
  subst hds
  rw [decideStory_story, decideStory_triggered_by]
  rw [decideStory_triggered_by] at hne
  refine ⟨hne, ?_, ?_, ?_⟩ <;>
    by_cases hr :
        relevantOf (_llm_classify hasClient o stories s.fingerprint) = true <;>
      by_cases hm :
          (_macro_trigger cfg.MACRO_HEADLINE_THRESHOLD stories).contains
            s.fingerprint = true <;>
        simp_all

theorem classify_triggered_by_witness :
    ("global_news", [macroDecided]) ∈
        classify false (fun _ => none) defaultConfig [macroStory] ∧
    macroDecided ∈ [macroDecided] ∧
    ("macro" ∈ macroDecided.triggered_by ↔
      macroDecided.story.fingerprint ∈
        _macro_trigger defaultConfig.MACRO_HEADLINE_THRESHOLD [macroStory]) := by
  refine ⟨by decide, by decide, ?_⟩
  exact (classify_triggered_by false (fun _ => none) defaultConfig [macroStory]
    ("global_news", [macroDecided]) (by decide) macroDecided (by decide)).2.2.2

/-! ## Admission and capacity lemmas -/

/-- With unique fingerprints, membership in the repetition detector's result
set is exactly the story's own threshold test. -/
theorem macro_trigger_mem (threshold : Nat) (stories : List Story) (s : Story)
    (hs : s ∈ stories) (hnd : (stories.map Story.fingerprint).Nodup) :
    (_macro_trigger threshold stories).contains s.fingerprint = true ↔
      threshold ≤ s.feed_count := by
  unfold _macro_trigger
  constructor
  · intro h
    have hmem : s.fingerprint ∈
        (stories.filter (fun x => threshold ≤ x.feed_count)).map
          Story.fingerprint := by
      simpa using h
    rcases List.mem_map.1 hmem with ⟨s', hs', hfp⟩
    rcases List.mem_filter.1 hs' with ⟨hs'm, hcond⟩
    have heq : s' = s := List.inj_on_of_nodup_map hnd hs'm hs hfp
    rw [← heq]
    simpa using hcond
  · intro h
    have hmem : s.fingerprint ∈
        (stories.filter (fun x => threshold ≤ x.feed_count)).map
          Story.fingerprint :=
      List.mem_map.2 ⟨s, List.mem_filter.2 ⟨hs, by simpa using h⟩, rfl⟩
    simpa using hmem

/-- Characterization of `appearsIn` through `bucketGet`, for maps with distinct keys. -/
theorem appearsIn_iff_exists_bucketGet (bs : Buckets)
    (hnd : (bs.map Prod.fst).Nodup) (fp : String) :
    appearsIn bs fp ↔ ∃ c, ∃ d ∈ bucketGet bs c, d.story.fingerprint = fp := by
  constructor
  · rintro ⟨p, hp, d, hd, hfp⟩
    exact ⟨p.1, d, mem_bucketGet_of_entry bs p hp d hd hnd, hfp⟩
  · rintro ⟨c, d, hd, hfp⟩
    rcases exists_entry_of_mem_bucketGet bs c d hd with ⟨p, hp, _, hp2⟩
    exact ⟨p, hp, d, hp2, hfp⟩

/-- When every verdict carries a valid section, so does every decision. -/
theorem decideStory_sectionKey_mem (cfg : Config)
    (verdicts : String → Option Verdict) (macroFps : List String) (s : Story)
    (hval : ∀ fp v, verdicts fp = some v → v.sectionKey ∈ SECTIONS) :
    (decideStory cfg verdicts macroFps s).sectionKey ∈ SECTIONS := by
  rw [decideStory_sectionKey]
  split
  · decide
  · unfold preSection
    cases hv : verdicts s.fingerprint with
    | none => decide
    | some v => exact hval _ v hv

/-- The cap bound on one bucket is preserved by one loop iteration. -/
theorem bucketGet_classifyStep_length (cfg : Config)
    (verdicts : String → Option Verdict) (macroFps : List String)
    (bs : Buckets) (s : Story) (c : String)
    (h : (bucketGet bs c).length ≤ limitOf cfg c) :
    (bucketGet (classifyStep cfg verdicts macroFps bs s) c).length ≤
      limitOf cfg c := by
  simp only [classifyStep]
  split
  · exact h
  · split
    · next hlt =>
        rw [bucketGet_bucketAppend]
        split
        · next hcond =>
            rcases hcond with ⟨rfl, _⟩
            rw [List.length_append, List.length_cons, List.length_nil]
            omega
        · exact h
    · exact h

/-- The cap bound on one bucket is preserved by the whole loop. -/
theorem bucketGet_foldl_length (cfg : Config)
    (verdicts : String → Option Verdict) (macroFps : List String)
    (l : List Story) (bs : Buckets) (c : String)
    (h : (bucketGet bs c).length ≤ limitOf cfg c) :
    (bucketGet (l.foldl (classifyStep cfg verdicts macroFps) bs) c).length ≤
      limitOf cfg c := by
  induction l generalizing bs with
  | nil => exact h
  | cons s t ih =>
      rw [List.foldl_cons]
      exact ih _ (bucketGet_classifyStep_length cfg verdicts macroFps bs s c h)

/-- A candidate whose target bucket is already full leaves the bucket map
exactly unchanged (the item is dropped, not queued or reassigned). -/
theorem classifyStep_full_drop (cfg : Config)
    (verdicts : String → Option Verdict) (macroFps : List String)
    (bs : Buckets) (s : Story)
    (h : limitOf cfg (decideStory cfg verdicts macroFps s).sectionKey ≤
      (bucketGet bs (decideStory cfg verdicts macroFps s).sectionKey).length) :
    classifyStep cfg verdicts macroFps bs s = bs := by
  simp only [classifyStep]
  split
  · rfl
  · have hng :
        ¬ ((bucketGet bs (decideStory cfg verdicts macroFps s).sectionKey).length <
          limitOf cfg (decideStory cfg verdicts macroFps s).sectionKey) := by
      omega
    rw [if_neg hng]

/-- Buckets built from stories avoiding a fingerprint never contain it. -/
theorem foldl_fresh (cfg : Config) (verdicts : String → Option Verdict)
    (macroFps : List String) (l : List Story) (fp : String)
    (hl : ∀ s' ∈ l, s'.fingerprint ≠ fp) :
    ∀ c d', d' ∈ bucketGet
        (l.foldl (classifyStep cfg verdicts macroFps) initBuckets) c →
      d'.story.fingerprint ≠ fp := by
  intro c d' h
  rcases mem_bucketGet_foldl cfg verdicts macroFps l initBuckets c d' h with
    h1 | ⟨s', hs', hds', _, _⟩
  · rw [bucketGet_initBuckets] at h1
    cases h1
  · rw [hds', decideStory_story]
    exact hl s' hs'

/-- Extending such a bucket map with further fingerprint-avoiding stories
still never makes the fingerprint appear. -/
theorem not_appearsIn_foldl (cfg : Config)
    (verdicts : String → Option Verdict) (macroFps : List String)
    (l : List Story) (bs : Buckets) (fp : String)
    (hkeys : (bs.map Prod.fst).Nodup)
    (hbs : ∀ c d', d' ∈ bucketGet bs c → d'.story.fingerprint ≠ fp)
    (hl : ∀ s' ∈ l, s'.fingerprint ≠ fp) :
    ¬ appearsIn (l.foldl (classifyStep cfg verdicts macroFps) bs) fp := by
  intro happ
  have hkeys2 :
      ((l.foldl (classifyStep cfg verdicts macroFps) bs).map Prod.fst).Nodup := by
    rw [foldl_classifyStep_keys]
    exact hkeys
  rcases (appearsIn_iff_exists_bucketGet _ hkeys2 fp).1 happ with ⟨c, d', hd', hfp⟩
  rcases mem_bucketGet_foldl cfg verdicts macroFps l bs c d' hd' with
    h1 | ⟨s', hs', hds', _, _⟩
  · exact hbs c d' h1 hfp
  · apply hl s' hs'
    rw [← hfp, hds', decideStory_story]

/-- A triggered candidate with room is appended to its section's bucket. -/
theorem classifyStep_of_triggered_of_room (cfg : Config)
    (verdicts : String → Option Verdict) (macroFps : List String)
    (bs : Buckets) (s : Story)
    (ht : (decideStory cfg verdicts macroFps s).triggered_by ≠ [])
    (hroom :
      (bucketGet bs (decideStory cfg verdicts macroFps s).sectionKey).length <
        limitOf cfg (decideStory cfg verdicts macroFps s).sectionKey) :
    classifyStep cfg verdicts macroFps bs s =
      bucketAppend bs (decideStory cfg verdicts macroFps s).sectionKey
        (decideStory cfg verdicts macroFps s) := by
  simp only [classifyStep]
  rw [if_neg (by simp [ht]), if_pos hroom]

/-- An untriggered story leaves the bucket map exactly unchanged. -/
theorem classifyStep_of_untriggered (cfg : Config)
    (verdicts : String → Option Verdict) (macroFps : List String)
    (bs : Buckets) (s : Story)
    (ht : (decideStory cfg verdicts macroFps s).triggered_by = []) :
    classifyStep cfg verdicts macroFps bs s = bs := by
  simp only [classifyStep]
  rw [if_pos (by simp [ht])]

/-- The core admission characterization: with unique fingerprints, a story
appears in some bucket of the assembled map exactly when it is triggered
(relevant verdict or repetition set membership) and, at the moment it is
processed, its target bucket still holds fewer items than its cap. -/
theorem classifyWith_admission_iff (cfg : Config)
    (verdicts : String → Option Verdict) (macroFps : List String)
    (pre post : List Story) (s : Story)
    (hnd : ((pre ++ s :: post).map Story.fingerprint).Nodup)
    (hval : ∀ fp v, verdicts fp = some v → v.sectionKey ∈ SECTIONS) :
    appearsIn
        ((pre ++ s :: post).foldl (classifyStep cfg verdicts macroFps)
          initBuckets)
        s.fingerprint ↔
      ((relevantOf (verdicts s.fingerprint) = true ∨
          macroFps.contains s.fingerprint = true) ∧
        (bucketGet
            (pre.foldl (classifyStep cfg verdicts macroFps) initBuckets)
            (decideStory cfg verdicts macroFps s).sectionKey).length <
          limitOf cfg (decideStory cfg verdicts macroFps s).sectionKey) := by
  rw [List.map_append, List.nodup_append] at hnd
  obtain ⟨hndPre, hndCons, hdisj⟩ := hnd
  rw [List.map_cons, List.nodup_cons] at hndCons
  obtain ⟨hsPost, hndPost⟩ := hndCons
  have hpreNe : ∀ s' ∈ pre, s'.fingerprint ≠ s.fingerprint := by
    intro s' hs' hEq
    exact hdisj (List.mem_map_of_mem Story.fingerprint hs')
      (by rw [List.map_cons]; exact hEq ▸ List.mem_cons_self _ _)
  have hpostNe : ∀ s' ∈ post, s'.fingerprint ≠ s.fingerprint := by
    intro s' hs' hEq
    exact hsPost (hEq ▸ List.mem_map_of_mem Story.fingerprint hs')
  set B1 := pre.foldl (classifyStep cfg verdicts macroFps) initBuckets
    with hB1def
  have hkeysB1 : B1.map Prod.fst = SECTIONS := by
    rw [hB1def, foldl_classifyStep_keys, initBuckets_keys]
  have hfreshB1 : ∀ c d', d' ∈ bucketGet B1 c →
      d'.story.fingerprint ≠ s.fingerprint := by
    rw [hB1def]
    exact foldl_fresh cfg verdicts macroFps pre s.fingerprint hpreNe
  have hsplit : (pre ++ s :: post).foldl (classifyStep cfg verdicts macroFps)
      initBuckets =
      post.foldl (classifyStep cfg verdicts macroFps)
        (classifyStep cfg verdicts macroFps B1 s) := by
    rw [List.foldl_append, List.foldl_cons, hB1def]
  rw [hsplit]
  have hdsec := decideStory_sectionKey_mem cfg verdicts macroFps s hval
  have htrigIff : (decideStory cfg verdicts macroFps s).triggered_by = [] ↔
      ¬ (relevantOf (verdicts s.fingerprint) = true ∨
        macroFps.contains s.fingerprint = true) := by
    rw [decideStory_triggered_by]
    by_cases hr : relevantOf (verdicts s.fingerprint) = true <;>
      by_cases hm : macroFps.contains s.fingerprint = true <;>
        simp [hr, hm]
  by_cases htrig : (decideStory cfg verdicts macroFps s).triggered_by = []
  case pos =>
    rw [classifyStep_of_untriggered cfg verdicts macroFps B1 s htrig]
    have hnotapp :=
      not_appearsIn_foldl cfg verdicts macroFps post B1 s.fingerprint
        (by rw [hkeysB1]; decide) hfreshB1 hpostNe
    constructor
    · intro happ
      exact absurd happ hnotapp
    · rintro ⟨hor, _⟩
      exact absurd hor (htrigIff.1 htrig)
  case neg =>
    have hor : relevantOf (verdicts s.fingerprint) = true ∨
        macroFps.contains s.fingerprint = true := by
      by_contra hcon
      exact htrig (htrigIff.2 hcon)
    by_cases hroom :
        (bucketGet B1 (decideStory cfg verdicts macroFps s).sectionKey).length <
          limitOf cfg (decideStory cfg verdicts macroFps s).sectionKey
    case pos =>
      constructor
      · intro _
        exact ⟨hor, hroom⟩
      · intro _
        rw [classifyStep_of_triggered_of_room cfg verdicts macroFps B1 s htrig
          hroom]
        have hmem2 : decideStory cfg verdicts macroFps s ∈
            bucketGet
              (bucketAppend B1
                (decideStory cfg verdicts macroFps s).sectionKey
                (decideStory cfg verdicts macroFps s))
              (decideStory cfg verdicts macroFps s).sectionKey := by
          rw [bucketGet_bucketAppend,
            if_pos ⟨rfl, by rw [hkeysB1]; exact hdsec⟩]
          exact List.mem_append_right _ (List.mem_cons_self _ _)
        have hmem3 := (bucketGet_foldl_mono cfg verdicts macroFps post
            (bucketAppend B1 (decideStory cfg verdicts macroFps s).sectionKey
              (decideStory cfg verdicts macroFps s))
            (decideStory cfg verdicts macroFps s).sectionKey).subset hmem2
        have hkeys3 : ((post.foldl (classifyStep cfg verdicts macroFps)
            (bucketAppend B1 (decideStory cfg verdicts macroFps s).sectionKey
              (decideStory cfg verdicts macroFps s))).map Prod.fst).Nodup := by
          rw [foldl_classifyStep_keys, bucketAppend_keys, hkeysB1]
          decide
        exact (appearsIn_iff_exists_bucketGet _ hkeys3 s.fingerprint).2
          ⟨(decideStory cfg verdicts macroFps s).sectionKey,
            decideStory cfg verdicts macroFps s, hmem3,
            by rw [decideStory_story]⟩
    case neg =>
      rw [classifyStep_full_drop cfg verdicts macroFps B1 s
        (Nat.le_of_not_lt hroom)]
      have hnotapp :=
        not_appearsIn_foldl cfg verdicts macroFps post B1 s.fingerprint
          (by rw [hkeysB1]; decide) hfreshB1 hpostNe
      constructor
      · intro happ
        exact absurd happ hnotapp
      · rintro ⟨_, hcon⟩
        exact absurd hcon hroom

/-- C4: for every admitted item, its keyword tags are exactly the detector's
output, and if they are non-empty while the pre-override category (the
verdict's proposed section, or global_news without a verdict) is neither
headline nor merger_news, the final category is merger_news; when the
pre-override category is headline or merger_news it is left unchanged. -/
theorem classify_keyword_override (hasClient : Bool)
    (o : Nat → Option (List LLMResult)) (cfg : Config) (stories : List Story)
    (p : String × List DecidedStory)
    (hp : p ∈ classify hasClient o cfg stories) (d : DecidedStory)
    (hd : d ∈ p.2) :
    d.special_situations =
      _detect_special_situations cfg.SPECIAL_SITUATIONS_KEYWORDS d.story ∧
    (d.special_situations ≠ [] →
      preSection (_llm_classify hasClient o stories d.story.fingerprint) ≠
        "headline" →
      preSection (_llm_classify hasClient o stories d.story.fingerprint) ≠
        "merger_news" →
      d.sectionKey = "merger_news") ∧
    ((preSection (_llm_classify hasClient o stories d.story.fingerprint) =
        "headline" ∨
      preSection (_llm_classify hasClient o stories d.story.fingerprint) =
        "merger_news") →
      d.sectionKey =
        preSection (_llm_classify hasClient o stories d.story.fingerprint)) := by
  rcases classify_entry_decomp hasClient o cfg stories p hp d hd with
    ⟨s, _, hds, _, _⟩
  subst hds
  rw [decideStory_story, decideStory_special_situations, decideStory_sectionKey]
  refine ⟨rfl, ?_, ?_⟩
  · intro hne hh hm
    simp [List.isEmpty_iff, hne, hh, hm]
  · intro hpre
    rcases hpre with h | h <;> rw [h] <;> simp

theorem classify_keyword_override_witness :
    kwDecided.special_situations ≠ [] ∧
    kwDecided.sectionKey = "merger_news" := by
  refine ⟨by decide, ?_⟩
  exact (classify_keyword_override false (fun _ => none) defaultConfig
    [kwStory] ("merger_news", [kwDecided]) (by decide) kwDecided
    (by decide)).2.1 (by decide) (by decide) (by decide)

/-- C3: no bucket ever exceeds its configured cap; the buckets assembled
after any prefix of the input are a prefix of the final buckets, so
admitted items are never displaced or reordered by later candidates; and a
candidate whose target section is already at its cap leaves the bucket map
exactly unchanged (the item is dropped, while its decision fields are still
those computed by `decideStory`). -/
theorem classify_cap_enforcement (hasClient : Bool)
    (o : Nat → Option (List LLMResult)) (cfg : Config) (stories : List Story) :
    (∀ c, (bucketGet (classify hasClient o cfg stories) c).length ≤
      limitOf cfg c) ∧
    (∀ pre post, stories = pre ++ post → ∀ c,
      bucketGet
          (pre.foldl
            (classifyStep cfg (_llm_classify hasClient o stories)
              (_macro_trigger cfg.MACRO_HEADLINE_THRESHOLD stories))
            initBuckets) c <+:
        bucketGet (classify hasClient o cfg stories) c) ∧
    (∀ (bs : Buckets) (s : Story),
      limitOf cfg
          (decideStory cfg (_llm_classify hasClient o stories)
            (_macro_trigger cfg.MACRO_HEADLINE_THRESHOLD stories)
            s).sectionKey ≤
        (bucketGet bs
          (decideStory cfg (_llm_classify hasClient o stories)
            (_macro_trigger cfg.MACRO_HEADLINE_THRESHOLD stories)
            s).sectionKey).length →
      classifyStep cfg (_llm_classify hasClient o stories)
        (_macro_trigger cfg.MACRO_HEADLINE_THRESHOLD stories) bs s = bs) := by
  refine ⟨?_, ?_, ?_⟩
  · intro c
    have h0 : (bucketGet initBuckets c).length ≤ limitOf cfg c := by
      rw [bucketGet_initBuckets]
      simp
    exact bucketGet_foldl_length cfg (_llm_classify hasClient o stories)
      (_macro_trigger cfg.MACRO_HEADLINE_THRESHOLD stories) stories
      initBuckets c h0
  · intro pre post hsplit c
    subst hsplit
    have h2 : classify hasClient o cfg (pre ++ post) =
        post.foldl
          (classifyStep cfg (_llm_classify hasClient o (pre ++ post))
            (_macro_trigger cfg.MACRO_HEADLINE_THRESHOLD (pre ++ post)))
          (pre.foldl
            (classifyStep cfg (_llm_classify hasClient o (pre ++ post))
              (_macro_trigger cfg.MACRO_HEADLINE_THRESHOLD (pre ++ post)))
            initBuckets) := by
      unfold classify classifyWith
      rw [List.foldl_append]
    rw [h2]
    exact bucketGet_foldl_mono cfg (_llm_classify hasClient o (pre ++ post))
      (_macro_trigger cfg.MACRO_HEADLINE_THRESHOLD (pre ++ post)) post _ c
  · intro bs s h
    exact classifyStep_full_drop cfg (_llm_classify hasClient o stories)
      (_macro_trigger cfg.MACRO_HEADLINE_THRESHOLD stories) bs s h

theorem classify_cap_enforcement_witness :
    (bucketGet (classify false (fun _ => none) defaultConfig [macroStory])
        "global_news").length ≤ limitOf defaultConfig "global_news" ∧
    bucketGet (([] : List Story).foldl
        (classifyStep defaultConfig
          (_llm_classify false (fun _ => none) [macroStory])
          (_macro_trigger defaultConfig.MACRO_HEADLINE_THRESHOLD [macroStory]))
        initBuckets) "global_news" <+:
      bucketGet (classify false (fun _ => none) defaultConfig [macroStory])
        "global_news" ∧
    classifyStep zeroCapConfig
        (_llm_classify false (fun _ => none) [macroStory])
        (_macro_trigger zeroCapConfig.MACRO_HEADLINE_THRESHOLD [macroStory])
        initBuckets macroStory = initBuckets := by
  refine ⟨?_, ?_, ?_⟩
  · exact (classify_cap_enforcement false (fun _ => none) defaultConfig
      [macroStory]).1 "global_news"
  · exact (classify_cap_enforcement false (fun _ => none) defaultConfig
      [macroStory]).2.1 [] [macroStory] rfl "global_news"
  · exact (classify_cap_enforcement false (fun _ => none) zeroCapConfig
      [macroStory]).2.2 initBuckets macroStory (by decide)

/-- C1 counterexample: the fifth of five repetition-triggered global_news
stories meets the trigger disjunction (`feed_count ≥ N`) yet appears in no
bucket, because global_news (cap 4) is already full when it is processed:
the claim's unconditional "iff" fails right-to-left. -/
theorem classify_admission_iff_cex :
    defaultConfig.MACRO_HEADLINE_THRESHOLD ≤
      (overflowStories.getD 4 sampleStory).feed_count ∧
    ¬ appearsIn (classify false (fun _ => none) defaultConfig overflowStories)
        (overflowStories.getD 4 sampleStory).fingerprint := by
  decide

/-- C1 (amended: admission additionally requires the target bucket to be
below its cap at the moment the item is processed): with unique
fingerprints, a story appears in some bucket of the output iff (its
correlated verdict marks it relevant, or its `feed_count` reaches the
configured threshold) and the bucket of its decided section, when the story
is processed, holds fewer items than that section's cap. -/
theorem classify_admission_iff (hasClient : Bool)
    (o : Nat → Option (List LLMResult)) (cfg : Config)
    (pre post : List Story) (s : Story)
    (hnd : ((pre ++ s :: post).map Story.fingerprint).Nodup) :
    appearsIn (classify hasClient o cfg (pre ++ s :: post)) s.fingerprint ↔
      ((relevantOf
          (_llm_classify hasClient o (pre ++ s :: post) s.fingerprint) =
            true ∨
        cfg.MACRO_HEADLINE_THRESHOLD ≤ s.feed_count) ∧
       (bucketGet
          (pre.foldl
            (classifyStep cfg (_llm_classify hasClient o (pre ++ s :: post))
              (_macro_trigger cfg.MACRO_HEADLINE_THRESHOLD
                (pre ++ s :: post)))
            initBuckets)
          (decideStory cfg (_llm_classify hasClient o (pre ++ s :: post))
            (_macro_trigger cfg.MACRO_HEADLINE_THRESHOLD (pre ++ s :: post))
            s).sectionKey).length <
        limitOf cfg
          (decideStory cfg (_llm_classify hasClient o (pre ++ s :: post))
            (_macro_trigger cfg.MACRO_HEADLINE_THRESHOLD (pre ++ s :: post))
            s).sectionKey) := by
  have hmac := macro_trigger_mem cfg.MACRO_HEADLINE_THRESHOLD
    (pre ++ s :: post) s
    (List.mem_append_right pre (List.mem_cons_self s post)) hnd
  have h := classifyWith_admission_iff cfg
    (_llm_classify hasClient o (pre ++ s :: post))
    (_macro_trigger cfg.MACRO_HEADLINE_THRESHOLD (pre ++ s :: post))
    pre post s hnd
    (fun fp v hv => llm_classify_section_valid hasClient o _ fp v hv)
  rw [hmac] at h
  exact h

theorem classify_admission_iff_witness :
    appearsIn (classify false (fun _ => none) defaultConfig [macroStory])
      macroStory.fingerprint := by
  have h := classify_admission_iff false (fun _ => none) defaultConfig [] []
    macroStory (by decide)
  exact h.mpr ⟨Or.inr (by decide), by decide⟩

end MorningBrief
